import Mathlib

/-!
Verification development for the audio conversion service
(`src/api/src/services/audio.py`).

The embedding models:
* `AudioNormalizer.find_first_last_non_silent` (lines 21-46) as
  `find_first_last_non_silent`, parameterised over the boolean comparison
  `exceed` that stands for the source's `audio_data[X] > amplitude_threshold`;
  the default comparison for the default `-45` dBFS threshold is
  `exceedsDefault`, related to the exact real-valued amplitude threshold
  `amplitudeThreshold` by `exceedsDefault_iff`.
* `AudioNormalizer.normalize` (lines 48-66) as `normalize`, factored through
  `normalizeQuantized` (float conversion, peak normalization, gap trimming and
  int16 quantization, lines 51-61).  Samples are modelled as exact rationals;
  `np.max` on a zero-size array raises, which is modelled by the
  `Except`-valued result.
* `AudioService.convert_audio` (lines 85-181) as `convert_audio`, with the
  external encoders (`soundfile.write` / `scipy.io.wavfile.write`) as an
  opaque collaborator record `Collab`, and the `try`/`except` wrapper as
  `wrapConvertError` around `convert_audio_body`.
-/

/-- Value of `np.iinfo(np.int16).max` (audio.py line 14). -/
def int16_max : ℤ := 32767

/-- Truncation toward zero: the semantics of Python `int()` and of numpy
float-to-int `astype` casts for in-range values. -/
def truncToward0 (q : ℚ) : ℤ := if 0 ≤ q then ⌊q⌋ else ⌈q⌉

/-- Reduction of an integer into the int16 range by two's-complement
wraparound, the semantics of numpy `.astype(np.int16)`.  For values already in
`[-32768, 32767]` this is the identity (`toInt16_eq_self`). -/
def toInt16 (z : ℤ) : ℤ := (z + 32768) % 65536 - 32768

/-- A Python exception, reduced to its type name and message (`str(e)`). -/
structure PyExc where
  ty : String
  msg : String
deriving DecidableEq

/-- The `ValueError` numpy raises when `np.max` is applied to a zero-size
array, which happens at audio.py line 54 when `normalize` receives an empty
chunk. -/
def npEmptyMaxError : PyExc :=
  ⟨"ValueError", "zero-size array to reduction operation maximum which has no identity"⟩

/-- `np.max(np.abs(audio_float))` over the non-empty chunk `x :: xs`
(audio.py line 54). -/
def npMaxAbs (x : ℚ) (xs : List ℚ) : ℚ := xs.foldl (fun acc y => max acc |y|) |x|

/-- Peak normalization step (audio.py lines 54-55): if the peak is positive,
every sample is divided by it; otherwise the buffer is left unchanged. -/
def peakScale (audio_float : List ℚ) (peak : ℚ) : List ℚ :=
  if 0 < peak then audio_float.map (fun y => y / peak) else audio_float

/-- Python slice `a[:-t]`.  For `t = 0` the stop index `-0` is `0`, so the
result is empty; for `0 < t ≤ len(a)` the last `t` elements are dropped; for
`t > len(a)` the stop index clamps to `0`. -/
def pyNegSlice {α : Type} (a : List α) (t : ℕ) : List α :=
  a.take (if t = 0 then 0 else a.length - t)

/-- Gap-trimming step (audio.py lines 58-59): on a non-final chunk strictly
longer than `samples_to_trim`, the slice `audio_float[:-samples_to_trim]` is
taken. -/
def gapTrim (samples_to_trim : ℕ) (is_last_chunk : Bool) (audio_float : List ℚ) : List ℚ :=
  if is_last_chunk = false ∧ samples_to_trim < audio_float.length
  then pyNegSlice audio_float samples_to_trim
  else audio_float

/-- Quantization step (audio.py line 61):
`(audio_float * self.int16_max).astype(np.int16)`. -/
def quantize (audio_float : List ℚ) : List ℤ :=
  audio_float.map (fun x => toInt16 (truncToward0 (x * (int16_max : ℚ))))

/-- Amplitude threshold (audio.py line 27):
`self.int16_max * (10 ** (silence_threshold_db / 20))`, as an exact real. -/
noncomputable def amplitudeThreshold (silence_threshold_db : ℚ) : ℝ :=
  (int16_max : ℝ) * (10 : ℝ) ^ (((silence_threshold_db : ℝ)) / 20)

/-- Executable form of the comparison `audio_data[X] > amplitude_threshold`
(audio.py lines 33 and 38) at the default threshold of `-45` dBFS: since the
samples are integers and `184 < amplitudeThreshold (-45) < 185`, the
comparison is equivalent to `185 ≤ x` (`exceedsDefault_iff`). -/
def exceedsDefault (z : ℤ) : Bool := decide (185 ≤ z)

/-- Forward scan of audio.py lines 32-35: the index of the first sample on
which `exceed` holds, if any. -/
def firstNonSilent (exceed : ℤ → Bool) : List ℤ → Option ℕ
  | [] => none
  | x :: xs => if exceed x then some 0 else (firstNonSilent exceed xs).map (fun i => i + 1)

/-- Backward scan of audio.py lines 37-40: the index of the last sample on
which `exceed` holds, if any. -/
def lastNonSilent (exceed : ℤ → Bool) : List ℤ → Option ℕ
  | [] => none
  | x :: xs =>
      match lastNonSilent exceed xs with
      | some i => some (i + 1)
      | none => if exceed x then some 0 else none

/-- `AudioNormalizer.find_first_last_non_silent` (audio.py lines 21-46).  The
padding amounts come from the instance; `exceed` stands for the comparison of
a sample against the amplitude threshold.  Natural subtraction `s - padS`
implements `max(non_silent_index_start - samples_to_pad_start, 0)`. -/
def find_first_last_non_silent (samples_to_pad_start samples_to_pad_end : ℕ)
    (exceed : ℤ → Bool) (audio_data : List ℤ) : ℕ × ℕ :=
  match firstNonSilent exceed audio_data, lastNonSilent exceed audio_data with
  | some s, some e =>
      (s - samples_to_pad_start, min (e + samples_to_pad_end) audio_data.length)
  | _, _ => (0, audio_data.length)

/-- Configuration consumed from `..core.config.settings` (audio.py lines
15, 19): gap-trim duration and dynamic gap-trim padding, in milliseconds. -/
structure Config where
  gap_trim_ms : ℚ
  dynamic_gap_trim_padding_ms : ℚ
deriving DecidableEq

/-- Per-stream state of `AudioNormalizer` (audio.py lines 13-19): the three
sample counts derived from the configuration at construction. -/
structure AudioNormalizer where
  samples_to_trim : ℕ
  samples_to_pad_start : ℕ
  samples_to_pad_end : ℕ
deriving DecidableEq

/-- `AudioNormalizer.__init__` (audio.py lines 13-19) with
`sample_rate = 24000`.  `Int.toNat` of the difference implements
`max(... - samples_to_pad_start, 0)`; the configured durations are
non-negative, so `Int.toNat` on the other fields is exact. -/
def mkAudioNormalizer (cfg : Config) : AudioNormalizer :=
  { samples_to_trim := (truncToward0 (cfg.gap_trim_ms * 24000 / 1000)).toNat
    samples_to_pad_start := (truncToward0 (50 * 24000 / 1000)).toNat
    samples_to_pad_end :=
      (truncToward0 (cfg.dynamic_gap_trim_padding_ms * 24000 / 1000) -
        truncToward0 (50 * 24000 / 1000)).toNat }

/-- First half of `AudioNormalizer.normalize` (audio.py lines 51-61): float
conversion, peak normalization, gap trimming and quantization, producing the
int16 buffer handed to the silence locator.  An empty chunk makes
`np.max(np.abs(...))` raise. -/
def normalizeQuantized (nz : AudioNormalizer) (audio_data : List ℚ)
    (is_last_chunk : Bool) : Except PyExc (List ℤ) :=
  match audio_data with
  | [] => .error npEmptyMaxError
  | x :: xs =>
      .ok (quantize (gapTrim nz.samples_to_trim is_last_chunk
        (peakScale (x :: xs) (npMaxAbs x xs))))

/-- `AudioNormalizer.normalize` (audio.py lines 48-66): quantization pipeline,
then the slice `audio_int[start_index:end_index]` with the indices returned by
the silence locator at the default `-45` dBFS threshold. -/
def AudioNormalizer.normalize (nz : AudioNormalizer) (audio_data : List ℚ)
    (is_last_chunk : Bool) : Except PyExc (List ℤ) :=
  match normalizeQuantized nz audio_data is_last_chunk with
  | .error e => .error e
  | .ok audio_int =>
      .ok ((audio_int.take
              (find_first_last_non_silent nz.samples_to_pad_start
                nz.samples_to_pad_end exceedsDefault audio_int).2).drop
            (find_first_last_non_silent nz.samples_to_pad_start
              nz.samples_to_pad_end exceedsDefault audio_int).1)

/-- A value in a format-settings mapping: encoder parameters are strings
(such as `"CONSTANT"`) or numbers (such as `0.0`). -/
inductive SVal where
  | str : String → SVal
  | num : ℚ → SVal
deriving DecidableEq

/-- `AudioService.DEFAULT_SETTINGS` (audio.py lines 72-83).  Only the three
codec formats have entries; the table is only consulted for those formats. -/
def DEFAULT_SETTINGS : String → List (String × SVal)
  | "mp3" => [("bitrate_mode", SVal.str "CONSTANT"), ("compression_level", SVal.num 0)]
  | "opus" => [("compression_level", SVal.num 0)]
  | "flac" => [("compression_level", SVal.num 0)]
  | _ => []

/-- The caller-supplied per-format overrides for one format:
`format_settings.get(fmt, {}) if format_settings else {}`
(audio.py lines 145, 154, 162). -/
def callerSettings
    (format_settings : Option (List (String × List (String × SVal))))
    (fmt : String) : List (String × SVal) :=
  match format_settings with
  | some fs => (fs.lookup fmt).getD []
  | none => []

/-- Python dict merge `{**d, **o}`: the entries of `d` in order with values
replaced by `o` where `o` has the same key, followed by the entries of `o`
whose keys are not in `d`. -/
def dictUpdate (d o : List (String × SVal)) : List (String × SVal) :=
  d.map (fun p => (p.1, (o.lookup p.1).getD p.2)) ++
    o.filter (fun p => (d.lookup p.1).isNone)

/-- The settings handed to the encoder for a codec format:
`{**AudioService.DEFAULT_SETTINGS[fmt], **(caller overrides for fmt)}`
(audio.py lines 146, 155, 163). -/
def resolvedSettings
    (format_settings : Option (List (String × List (String × SVal))))
    (fmt : String) : List (String × SVal) :=
  dictUpdate (DEFAULT_SETTINGS fmt) (callerSettings format_settings fmt)

/-- The `format=` string handed to `sf.write` for each codec format
(audio.py lines 149, 156, 164). -/
def sfFormatName (fmt : String) : String :=
  if fmt = "mp3" then "MP3" else if fmt = "opus" then "OGG" else "FLAC"

/-- The `subtype=` argument handed to `sf.write` for each codec format
(audio.py lines 157, 165). -/
def sfSubtypeName (fmt : String) : Option String :=
  if fmt = "mp3" then none else if fmt = "opus" then some "OPUS" else some "PCM_16"

/-- Little-endian byte pair of one int16 sample, as produced by
`ndarray.tobytes()` on an int16 array. -/
def int16LEBytes (z : ℤ) : List UInt8 :=
  [UInt8.ofNat ((z % 65536).toNat % 256), UInt8.ofNat ((z % 65536).toNat / 256)]

/-- `normalized_audio.tobytes()` (audio.py line 133): the concatenated
little-endian 16-bit samples, with no header. -/
def tobytes : List ℤ → List UInt8
  | [] => []
  | z :: zs => int16LEBytes z ++ tobytes zs

/-- The opaque external encoder collaborators: `sf.write` (soundfile), keyed
by its `format`, `subtype` and settings arguments, and `wavfile.write`
(scipy).  Each may fail with an arbitrary exception. -/
structure Collab where
  sfWrite : String → Option String → List ℤ → ℕ → List (String × SVal) →
    Except PyExc (List UInt8)
  wavfileWrite : ℕ → List ℤ → Except PyExc (List UInt8)

/-- The body of the `try` block of `AudioService.convert_audio`
(audio.py lines 122-177): normalization (streaming mode only), then dispatch
on `output_format`, with the unsupported-format `ValueError`s of lines
166-174. -/
def convert_audio_body (collab : Collab) (cfg : Config) (audio_data : List ℤ)
    (sample_rate : ℕ) (output_format : String)
    (is_first_chunk : Bool) (is_last_chunk : Bool)
    (normalizer : Option AudioNormalizer)
    (format_settings : Option (List (String × List (String × SVal))))
    (stream : Bool) : Except PyExc (List UInt8) :=
  match (if stream = true
         then (normalizer.getD (mkAudioNormalizer cfg)).normalize
                (audio_data.map (fun z => (z : ℚ))) is_last_chunk
         else Except.ok audio_data) with
  | .error e => .error e
  | .ok normalized_audio =>
      if output_format = "pcm" then
        .ok (tobytes normalized_audio)
      else if output_format = "wav" then
        if stream = true then
          collab.sfWrite "WAV" (some "PCM_16") normalized_audio sample_rate []
        else
          collab.wavfileWrite sample_rate normalized_audio
      else if output_format = "mp3" then
        collab.sfWrite "MP3" none normalized_audio sample_rate
          (resolvedSettings format_settings "mp3")
      else if output_format = "opus" then
        collab.sfWrite "OGG" (some "OPUS") normalized_audio sample_rate
          (resolvedSettings format_settings "opus")
      else if output_format = "flac" then
        collab.sfWrite "FLAC" (some "PCM_16") normalized_audio sample_rate
          (resolvedSettings format_settings "flac")
      else if output_format = "aac" then
        .error ⟨"ValueError",
          "Format aac not supported. Supported formats are: wav, mp3, opus, flac, pcm."⟩
      else
        .error ⟨"ValueError",
          "Format " ++ output_format ++
            " not supported. Supported formats are: wav, mp3, opus, flac, pcm."⟩

/-- The `except Exception` handler of `AudioService.convert_audio`
(audio.py lines 179-181): any failure of the body is re-raised as
`ValueError(f"Failed to convert audio to {output_format}: {str(e)}")`. -/
def wrapConvertError (output_format : String)
    (r : Except PyExc (List UInt8)) : Except PyExc (List UInt8) :=
  match r with
  | .ok b => .ok b
  | .error e =>
      .error ⟨"ValueError", "Failed to convert audio to " ++ output_format ++ ": " ++ e.msg⟩

/-- `AudioService.convert_audio` (audio.py lines 85-181): the `try` body
wrapped by the catch-all handler. -/
def convert_audio (collab : Collab) (cfg : Config) (audio_data : List ℤ)
    (sample_rate : ℕ) (output_format : String)
    (is_first_chunk : Bool) (is_last_chunk : Bool)
    (normalizer : Option AudioNormalizer)
    (format_settings : Option (List (String × List (String × SVal))))
    (stream : Bool) : Except PyExc (List UInt8) :=
  wrapConvertError output_format
    (convert_audio_body collab cfg audio_data sample_rate output_format
      is_first_chunk is_last_chunk normalizer format_settings stream)

/-- A trivial encoder collaborator whose writers always succeed with an empty
byte buffer; used to instantiate witnesses. -/
def trivialCollab : Collab :=
  { sfWrite := fun _ _ _ _ _ => .ok []
    wavfileWrite := fun _ _ => .ok [] }

/-- The sample at index `i` of `l` exceeds the real amplitude threshold for
`db` dBFS.  This is the specification-level reading of the comparison at
audio.py lines 33 and 38. -/
def exceedsAmpAt (db : ℚ) (l : List ℤ) (i : ℕ) : Prop :=
  ∃ h : i < l.length, amplitudeThreshold db < ((l.get ⟨i, h⟩ : ℤ) : ℝ)

/-- The predicate `exceed` holds at index `i` of `l`: the abstract form of
"sample `i` is above the silence threshold". -/
def exceedsAt (exceed : ℤ → Bool) (l : List ℤ) (i : ℕ) : Prop :=
  ∃ h : i < l.length, exceed (l.get ⟨i, h⟩) = true

/-- Modelled from the claim wording for comparison with the source: a silence
locator that scans for the first and last index whose ABSOLUTE sample value
satisfies the threshold comparison.  The source locator
`find_first_last_non_silent` compares the signed sample value instead. -/
def find_first_last_abs (samples_to_pad_start samples_to_pad_end : ℕ)
    (exceed : ℤ → Bool) (audio_data : List ℤ) : ℕ × ℕ :=
  match firstNonSilent (fun z => exceed |z|) audio_data,
        lastNonSilent (fun z => exceed |z|) audio_data with
  | some s, some e =>
      (s - samples_to_pad_start, min (e + samples_to_pad_end) audio_data.length)
  | _, _ => (0, audio_data.length)

/-! ### The amplitude threshold at the default `-45` dBFS -/

theorem amplitudeThreshold_neg45_eq :
    amplitudeThreshold (-45) = 32767 / (10 : ℝ) ^ ((9 : ℝ) / 4) := by
  unfold amplitudeThreshold int16_max
  have h1 : (((-45 : ℚ) : ℝ)) / 20 = -((9 : ℝ) / 4) := by push_cast; ring
  rw [h1, Real.rpow_neg (by norm_num : (0:ℝ) ≤ 10)]
  exact (div_eq_mul_inv _ _).symm

theorem ten_rpow_nine_quarters_pow_four :
    ((10 : ℝ) ^ ((9 : ℝ) / 4)) ^ (4 : ℕ) = 10 ^ (9 : ℕ) := by
  rw [← Real.rpow_natCast ((10:ℝ) ^ ((9:ℝ)/4)) 4, ← Real.rpow_mul (by norm_num : (0:ℝ) ≤ 10)]
  have h2 : ((9:ℝ)/4) * ((4:ℕ) : ℝ) = ((9:ℕ) : ℝ) := by norm_num
  rw [h2, Real.rpow_natCast]

theorem amp_gt_184 : (184 : ℝ) < amplitudeThreshold (-45) := by
  rw [amplitudeThreshold_neg45_eq]
  have hy : (0:ℝ) < (10:ℝ) ^ ((9:ℝ)/4) := Real.rpow_pos_of_pos (by norm_num) _
  rw [lt_div_iff₀ hy]
  have h4 : ((184:ℝ) * (10 : ℝ) ^ ((9 : ℝ)/4)) ^ (4:ℕ) < (32767:ℝ) ^ (4:ℕ) := by
    rw [mul_pow, ten_rpow_nine_quarters_pow_four]
    norm_num
  exact lt_of_pow_lt_pow_left₀ 4 (by norm_num) h4

theorem amp_lt_185 : amplitudeThreshold (-45) < 185 := by
  rw [amplitudeThreshold_neg45_eq]
  have hy : (0:ℝ) < (10:ℝ) ^ ((9:ℝ)/4) := Real.rpow_pos_of_pos (by norm_num) _
  rw [div_lt_iff₀ hy]
  have h4 : (32767:ℝ) ^ (4:ℕ) < ((185:ℝ) * (10 : ℝ) ^ ((9 : ℝ)/4)) ^ (4:ℕ) := by
    rw [mul_pow, ten_rpow_nine_quarters_pow_four]
    norm_num
  exact lt_of_pow_lt_pow_left₀ 4 (by positivity) h4

theorem amplitudeThreshold_pos (db : ℚ) : 0 < amplitudeThreshold db := by
  unfold amplitudeThreshold int16_max
  positivity

theorem exceedsDefault_iff (z : ℤ) :
    exceedsDefault z = true ↔ amplitudeThreshold (-45) < (z : ℝ) := by
  unfold exceedsDefault
  rw [decide_eq_true_eq]
  constructor
  · intro h
    have hz : (185 : ℝ) ≤ (z : ℝ) := by exact_mod_cast h
    exact lt_of_lt_of_le amp_lt_185 hz
  · intro h
    have h184 : (184 : ℝ) < (z : ℝ) := lt_trans amp_gt_184 h
    have hz : (184 : ℤ) < z := by exact_mod_cast h184
    omega

/-! ### Characterization of the two scans of the silence locator -/

theorem exceedsAt_cons_zero (exceed : ℤ → Bool) (x : ℤ) (l : List ℤ) :
    exceedsAt exceed (x :: l) 0 ↔ exceed x = true := by
  unfold exceedsAt
  constructor
  · rintro ⟨h, hx⟩
    exact hx
  · intro hx
    exact ⟨Nat.succ_pos _, hx⟩

theorem exceedsAt_cons_succ (exceed : ℤ → Bool) (x : ℤ) (l : List ℤ) (i : ℕ) :
    exceedsAt exceed (x :: l) (i + 1) ↔ exceedsAt exceed l i := by
  unfold exceedsAt
  constructor
  · rintro ⟨h, hx⟩
    exact ⟨Nat.lt_of_succ_lt_succ h, hx⟩
  · rintro ⟨h, hx⟩
    exact ⟨Nat.succ_lt_succ h, hx⟩

theorem exceedsAt_imp_mem (exceed : ℤ → Bool) (l : List ℤ) (i : ℕ)
    (h : exceedsAt exceed l i) : ∃ z ∈ l, exceed z = true := by
  rcases h with ⟨hi, hx⟩
  exact ⟨l.get ⟨i, hi⟩, List.get_mem l i hi, hx⟩

theorem firstNonSilent_eq_none_iff (exceed : ℤ → Bool) (l : List ℤ) :
    firstNonSilent exceed l = none ↔ ∀ z ∈ l, exceed z = false := by
  induction l with
  | nil => simp [firstNonSilent]
  | cons x xs ih =>
      unfold firstNonSilent
      cases hx : exceed x with
      | true => simp [hx]
      | false =>
          cases hf : firstNonSilent exceed xs with
          | none =>
              simp only [hx, hf, Bool.false_eq_true, if_false, Option.map_none',
                List.forall_mem_cons, true_iff]
              exact ⟨trivial, ih.mp hf⟩
          | some i =>
              simp only [hx, hf, Bool.false_eq_true, if_false, Option.map_some',
                List.forall_mem_cons]
              constructor
              · intro h
                exact absurd h (by simp)
              · rintro ⟨-, h⟩
                have := ih.mpr h
                rw [hf] at this
                exact absurd this (by simp)

theorem lastNonSilent_eq_none_iff (exceed : ℤ → Bool) (l : List ℤ) :
    lastNonSilent exceed l = none ↔ ∀ z ∈ l, exceed z = false := by
  induction l with
  | nil => simp [lastNonSilent]
  | cons x xs ih =>
      unfold lastNonSilent
      cases hl : lastNonSilent exceed xs with
      | some i =>
          simp only [hl, List.forall_mem_cons]
          constructor
          · intro h
            exact absurd h (by simp)
          · rintro ⟨-, h⟩
            have := ih.mpr h
            rw [hl] at this
            exact absurd this (by simp)
      | none =>
          cases hx : exceed x with
          | true => simp [hl, hx]
          | false =>
              simp only [hl, hx, Bool.false_eq_true, if_false,
                List.forall_mem_cons, true_iff]
              exact ⟨trivial, ih.mp hl⟩

theorem firstNonSilent_eq_some_spec (exceed : ℤ → Bool) (l : List ℤ) (i : ℕ)
    (h : firstNonSilent exceed l = some i) :
    exceedsAt exceed l i ∧ ∀ j, j < i → ¬ exceedsAt exceed l j := by
  induction l generalizing i with
  | nil => simp [firstNonSilent] at h
  | cons x xs ih =>
      unfold firstNonSilent at h
      cases hx : exceed x with
      | true =>
          rw [hx] at h
          simp only [if_true] at h
          injection h with h
          subst h
          refine ⟨(exceedsAt_cons_zero exceed x xs).mpr hx, ?_⟩
          intro j hj
          omega
      | false =>
          rw [hx] at h
          simp only [Bool.false_eq_true, if_false] at h
          cases hf : firstNonSilent exceed xs with
          | none =>
              rw [hf] at h
              simp at h
          | some i0 =>
              rw [hf] at h
              simp only [Option.map_some'] at h
              injection h with h
              subst h
              obtain ⟨h1, h2⟩ := ih i0 hf
              refine ⟨(exceedsAt_cons_succ exceed x xs i0).mpr h1, ?_⟩
              intro j hj
              cases j with
              | zero =>
                  rw [exceedsAt_cons_zero]
                  simp [hx]
              | succ j' =>
                  rw [exceedsAt_cons_succ]
                  exact h2 j' (by omega)

theorem lastNonSilent_eq_some_spec (exceed : ℤ → Bool) (l : List ℤ) (i : ℕ)
    (h : lastNonSilent exceed l = some i) :
    exceedsAt exceed l i ∧ ∀ j, i < j → ¬ exceedsAt exceed l j := by
  induction l generalizing i with
  | nil => simp [lastNonSilent] at h
  | cons x xs ih =>
      unfold lastNonSilent at h
      cases hl : lastNonSilent exceed xs with
      | some i0 =>
          rw [hl] at h
          injection h with h
          subst h
          obtain ⟨h1, h2⟩ := ih i0 hl
          refine ⟨(exceedsAt_cons_succ exceed x xs i0).mpr h1, ?_⟩
          intro j hj
          cases j with
          | zero => omega
          | succ j' =>
              rw [exceedsAt_cons_succ]
              exact h2 j' (by omega)
      | none =>
          rw [hl] at h
          cases hx : exceed x with
          | true =>
              rw [hx] at h
              simp only [if_true] at h
              injection h with h
              subst h
              refine ⟨(exceedsAt_cons_zero exceed x xs).mpr hx, ?_⟩
              intro j hj
              cases j with
              | zero => omega
              | succ j' =>
                  rw [exceedsAt_cons_succ]
                  intro hex
                  rcases exceedsAt_imp_mem exceed xs j' hex with ⟨z, hz, hzx⟩
                  have := (lastNonSilent_eq_none_iff exceed xs).mp hl z hz
                  rw [hzx] at this
                  exact absurd this (by simp)
          | false =>
              rw [hx] at h
              simp at h

theorem firstNonSilent_isSome_of_mem (exceed : ℤ → Bool) (l : List ℤ) (z : ℤ)
    (hz : z ∈ l) (hx : exceed z = true) : ∃ i, firstNonSilent exceed l = some i := by
  cases hf : firstNonSilent exceed l with
  | some i => exact ⟨i, rfl⟩
  | none =>
      have := (firstNonSilent_eq_none_iff exceed l).mp hf z hz
      rw [hx] at this
      exact absurd this (by simp)

theorem lastNonSilent_isSome_of_mem (exceed : ℤ → Bool) (l : List ℤ) (z : ℤ)
    (hz : z ∈ l) (hx : exceed z = true) : ∃ i, lastNonSilent exceed l = some i := by
  cases hl : lastNonSilent exceed l with
  | some i => exact ⟨i, rfl⟩
  | none =>
      have := (lastNonSilent_eq_none_iff exceed l).mp hl z hz
      rw [hx] at this
      exact absurd this (by simp)

theorem first_le_last (exceed : ℤ → Bool) (l : List ℤ) (s e : ℕ)
    (hs : firstNonSilent exceed l = some s) (he : lastNonSilent exceed l = some e) :
    s ≤ e := by
  obtain ⟨hsx, hsmin⟩ := firstNonSilent_eq_some_spec exceed l s hs
  obtain ⟨hex, hemax⟩ := lastNonSilent_eq_some_spec exceed l e he
  by_contra hlt
  push_neg at hlt
  exact (hsmin e hlt) hex

theorem exceedsAt_lt_length (exceed : ℤ → Bool) (l : List ℤ) (i : ℕ)
    (h : exceedsAt exceed l i) : i < l.length := by
  rcases h with ⟨hi, -⟩
  exact hi

/-! ### Pipeline lemmas for `normalize` -/

theorem peakScale_length (l : List ℚ) (m : ℚ) : (peakScale l m).length = l.length := by
  unfold peakScale
  by_cases h : 0 < m
  · rw [if_pos h, List.length_map]
  · rw [if_neg h]

theorem pyNegSlice_length_le {α : Type} (a : List α) (t : ℕ) :
    (pyNegSlice a t).length ≤ a.length := by
  unfold pyNegSlice
  rw [List.length_take]
  exact min_le_right _ _

theorem gapTrim_length_le (t : ℕ) (last : Bool) (af : List ℚ) :
    (gapTrim t last af).length ≤ af.length := by
  unfold gapTrim
  by_cases h : last = false ∧ t < af.length
  · rw [if_pos h]
    exact pyNegSlice_length_le af t
  · rw [if_neg h]

theorem quantize_length (af : List ℚ) : (quantize af).length = af.length :=
  List.length_map _ _

theorem gapTrim_mem (t : ℕ) (last : Bool) (af : List ℚ) (y : ℚ)
    (hy : y ∈ gapTrim t last af) : y ∈ af := by
  unfold gapTrim at hy
  by_cases h : last = false ∧ t < af.length
  · rw [if_pos h] at hy
    exact List.take_subset _ _ hy
  · rw [if_neg h] at hy
    exact hy

theorem foldl_maxAbs_init_le (xs : List ℚ) :
    ∀ a : ℚ, a ≤ xs.foldl (fun acc y => max acc |y|) a := by
  induction xs with
  | nil => intro a; simp
  | cons y ys ih =>
      intro a
      simp only [List.foldl_cons]
      exact le_trans (le_max_left a |y|) (ih (max a |y|))

theorem foldl_maxAbs_mem_le (xs : List ℚ) :
    ∀ (a z : ℚ), z ∈ xs → |z| ≤ xs.foldl (fun acc y => max acc |y|) a := by
  induction xs with
  | nil => intro a z hz; simp at hz
  | cons y ys ih =>
      intro a z hz
      simp only [List.foldl_cons]
      rcases List.mem_cons.mp hz with rfl | hz2
      · exact le_trans (le_max_right a |z|) (foldl_maxAbs_init_le ys _)
      · exact ih _ z hz2

theorem npMaxAbs_spec (x : ℚ) (xs : List ℚ) : ∀ z ∈ (x :: xs), |z| ≤ npMaxAbs x xs := by
  intro z hz
  unfold npMaxAbs
  rcases List.mem_cons.mp hz with rfl | hz2
  · exact foldl_maxAbs_init_le xs |z|
  · exact foldl_maxAbs_mem_le xs |x| z hz2

theorem peakScale_abs_le_one (l : List ℚ) (m : ℚ) (hm : ∀ z ∈ l, |z| ≤ m) :
    ∀ y ∈ peakScale l m, |y| ≤ 1 := by
  intro y hy
  unfold peakScale at hy
  by_cases h0 : 0 < m
  · rw [if_pos h0] at hy
    rcases List.mem_map.mp hy with ⟨z, hz, rfl⟩
    rw [abs_div, abs_of_pos h0, div_le_one h0]
    exact hm z hz
  · rw [if_neg h0] at hy
    push_neg at h0
    have h1 : |y| ≤ m := hm y hy
    have h2 : |y| ≤ 0 := le_trans h1 h0
    linarith [abs_nonneg y]

theorem truncToward0_abs_le (q : ℚ) (B : ℤ) (h : |q| ≤ (B : ℚ)) :
    |truncToward0 q| ≤ B := by
  unfold truncToward0
  rcases abs_le.mp h with ⟨hlo, hhi⟩
  by_cases h0 : 0 ≤ q
  · rw [if_pos h0]
    have h1 : (0:ℤ) ≤ ⌊q⌋ := Int.floor_nonneg.mpr h0
    have h2 : ⌊q⌋ ≤ B := by
      have h3 : ⌊q⌋ ≤ ⌊(B : ℚ)⌋ := Int.floor_le_floor hhi
      rwa [Int.floor_intCast] at h3
    rw [abs_of_nonneg h1]
    exact h2
  · rw [if_neg h0]
    push_neg at h0
    have h1 : ⌈q⌉ ≤ 0 := Int.ceil_le.mpr (by exact_mod_cast h0.le)
    have h2 : -B ≤ ⌈q⌉ := by
      have h3 : ⌈((-B : ℤ) : ℚ)⌉ ≤ ⌈q⌉ := by
        apply Int.ceil_le_ceil
        push_cast
        exact hlo
      rwa [Int.ceil_intCast] at h3
    rw [abs_of_nonpos h1]
    omega

theorem toInt16_eq_self (z : ℤ) (h1 : -32768 ≤ z) (h2 : z ≤ 32767) : toInt16 z = z := by
  unfold toInt16
  have h3 : (z + 32768) % 65536 = z + 32768 := Int.emod_eq_of_lt (by omega) (by omega)
  omega

theorem quantize_mem_abs_le (af : List ℚ) (hf : ∀ y ∈ af, |y| ≤ 1) :
    ∀ z ∈ quantize af, |z| ≤ int16_max := by
  intro z hz
  unfold quantize at hz
  rcases List.mem_map.mp hz with ⟨y, hy, rfl⟩
  have hy1 : |y| ≤ 1 := hf y hy
  have habs : |y * ((int16_max : ℤ) : ℚ)| ≤ ((int16_max : ℤ) : ℚ) := by
    rw [abs_mul]
    calc |y| * |((int16_max : ℤ) : ℚ)|
        ≤ 1 * |((int16_max : ℤ) : ℚ)| :=
          mul_le_mul_of_nonneg_right hy1 (abs_nonneg _)
      _ = ((int16_max : ℤ) : ℚ) := by
          rw [one_mul]
          unfold int16_max
          norm_num
  have ht : |truncToward0 (y * ((int16_max : ℤ) : ℚ))| ≤ int16_max :=
    truncToward0_abs_le _ int16_max habs
  unfold int16_max at ht ⊢
  obtain ⟨hlo, hhi⟩ := abs_le.mp ht
  rw [toInt16_eq_self _ (by omega) (by omega)]
  exact ht

theorem normalizeQuantized_cons (nz : AudioNormalizer) (x : ℚ) (xs : List ℚ)
    (last : Bool) :
    normalizeQuantized nz (x :: xs) last =
      .ok (quantize (gapTrim nz.samples_to_trim last (peakScale (x :: xs) (npMaxAbs x xs)))) :=
  rfl

theorem normalizeQuantized_ok_length (nz : AudioNormalizer) (audio : List ℚ)
    (last : Bool) (q : List ℤ) (h : normalizeQuantized nz audio last = .ok q) :
    q.length ≤ audio.length := by
  cases audio with
  | nil => simp [normalizeQuantized] at h
  | cons x xs =>
      rw [normalizeQuantized_cons] at h
      injection h with h
      subst h
      rw [quantize_length]
      calc (gapTrim nz.samples_to_trim last (peakScale (x :: xs) (npMaxAbs x xs))).length
          ≤ (peakScale (x :: xs) (npMaxAbs x xs)).length := gapTrim_length_le _ _ _
        _ = (x :: xs).length := peakScale_length _ _

theorem normalizeQuantized_ok_abs (nz : AudioNormalizer) (audio : List ℚ)
    (last : Bool) (q : List ℤ) (h : normalizeQuantized nz audio last = .ok q) :
    ∀ z ∈ q, |z| ≤ int16_max := by
  cases audio with
  | nil => simp [normalizeQuantized] at h
  | cons x xs =>
      rw [normalizeQuantized_cons] at h
      injection h with h
      subst h
      apply quantize_mem_abs_le
      intro y hy
      exact peakScale_abs_le_one _ _ (npMaxAbs_spec x xs) y (gapTrim_mem _ _ _ y hy)

theorem normalize_eq_slice (nz : AudioNormalizer) (audio : List ℚ) (last : Bool)
    (q : List ℤ) (h : normalizeQuantized nz audio last = .ok q) :
    nz.normalize audio last =
      .ok ((q.take (find_first_last_non_silent nz.samples_to_pad_start
              nz.samples_to_pad_end exceedsDefault q).2).drop
            (find_first_last_non_silent nz.samples_to_pad_start
              nz.samples_to_pad_end exceedsDefault q).1) := by
  unfold AudioNormalizer.normalize
  rw [h]

/-! ### Bridging the default comparison to the real threshold -/

theorem exceedsAt_default_iff_amp (q : List ℤ) (i : ℕ) :
    exceedsAt exceedsDefault q i ↔ exceedsAmpAt (-45) q i := by
  unfold exceedsAt exceedsAmpAt
  constructor
  · rintro ⟨h, hx⟩
    exact ⟨h, (exceedsDefault_iff _).mp hx⟩
  · rintro ⟨h, hx⟩
    exact ⟨h, (exceedsDefault_iff _).mpr hx⟩

theorem find_silent (exceed : ℤ → Bool) (padS padE : ℕ) (audio : List ℤ)
    (h : ∀ z ∈ audio, exceed z = false) :
    find_first_last_non_silent padS padE exceed audio = (0, audio.length) := by
  unfold find_first_last_non_silent
  rw [(firstNonSilent_eq_none_iff exceed audio).mpr h]

theorem all_silent_of_not_exceedsAmpAt (q : List ℤ)
    (h : ∀ i, ¬ exceedsAmpAt (-45) q i) : ∀ z ∈ q, exceedsDefault z = false := by
  intro z hz
  cases hb : exceedsDefault z with
  | false => rfl
  | true =>
      exfalso
      rcases List.mem_iff_get.mp hz with ⟨i, hi⟩
      apply h i.1
      apply (exceedsAt_default_iff_amp q i.1).mp
      unfold exceedsAt
      refine ⟨i.2, ?_⟩
      show exceedsDefault (q.get i) = true
      rw [hi]
      exact hb

theorem no_amp_exceed_single_zero (i : ℕ) : ¬ exceedsAmpAt (-45) [(0 : ℤ)] i := by
  unfold exceedsAmpAt
  rintro ⟨h, hx⟩
  have h1 : i < 1 := h
  interval_cases i
  have h0 : (([(0 : ℤ)].get ⟨0, h⟩ : ℤ) : ℝ) = 0 := by norm_num
  rw [h0] at hx
  exact absurd hx (not_lt.mpr (amplitudeThreshold_pos (-45)).le)

theorem amp_exceed_single_32767 : exceedsAmpAt (-45) [(32767 : ℤ)] 0 := by
  unfold exceedsAmpAt
  refine ⟨by norm_num, ?_⟩
  exact (exceedsDefault_iff 32767).mp (by decide)

/-! ### Claim theorems about the silence locator and `normalize` -/

/-- Claim C4 (confirmed): for every int16 buffer and every padding
configuration (non-negativity is enforced by the `ℕ` type) and any threshold
comparison, the pair `(start, end)` returned by the silence locator satisfies
`0 ≤ start ≤ end ≤ len(buffer)`, so slicing with it never widens the
buffer. -/
theorem locator_indices_bounds (padS padE : ℕ) (exceed : ℤ → Bool) (audio : List ℤ) :
    (find_first_last_non_silent padS padE exceed audio).1 ≤
      (find_first_last_non_silent padS padE exceed audio).2 ∧
    (find_first_last_non_silent padS padE exceed audio).2 ≤ audio.length := by
  unfold find_first_last_non_silent
  split
  next s e hf hl =>
      have hse : s ≤ e := first_le_last exceed audio s e hf hl
      have hel : e < audio.length :=
        exceedsAt_lt_length exceed audio e (lastNonSilent_eq_some_spec exceed audio e hl).1
      constructor
      · show s - padS ≤ min (e + padE) audio.length
        apply le_min
        · omega
        · omega
      · show min (e + padE) audio.length ≤ audio.length
        exact min_le_right _ _
  next => simp

/-- Claim C7 (amended): on a buffer in which no sample exceeds the silence
threshold the locator returns `(0, len(buffer))` — in particular `(0, 0)` for
an empty buffer — and `normalize` on a fully silent NON-EMPTY chunk returns
the whole post-trim quantized buffer unchanged and raises no exception; on a
zero-length chunk, however, `normalize` raises numpy's zero-size reduction
`ValueError` instead of flowing through. -/
theorem silent_buffer_full_range :
    (∀ (exceed : ℤ → Bool) (padS padE : ℕ) (audio : List ℤ),
        (∀ z ∈ audio, exceed z = false) →
        find_first_last_non_silent padS padE exceed audio = (0, audio.length)) ∧
    (∀ (nz : AudioNormalizer) (x : ℚ) (xs : List ℚ) (isLast : Bool) (q : List ℤ),
        normalizeQuantized nz (x :: xs) isLast = .ok q →
        (∀ i, ¬ exceedsAmpAt (-45) q i) →
        nz.normalize (x :: xs) isLast = .ok q) ∧
    (∀ (nz : AudioNormalizer) (isLast : Bool),
        nz.normalize ([] : List ℚ) isLast = .error npEmptyMaxError) := by
  refine ⟨?_, ?_, ?_⟩
  · intro exceed padS padE audio h
    exact find_silent exceed padS padE audio h
  · intro nz x xs isLast q hq hsil
    have hall : ∀ z ∈ q, exceedsDefault z = false := all_silent_of_not_exceedsAmpAt q hsil
    have hfind := find_silent exceedsDefault nz.samples_to_pad_start nz.samples_to_pad_end q hall
    rw [normalize_eq_slice nz (x :: xs) isLast q hq, hfind]
    simp
  · intro nz isLast
    rfl

theorem silent_buffer_full_range_witness :
    find_first_last_non_silent 0 0 exceedsDefault [0, 1] = (0, 2) ∧
    AudioNormalizer.normalize ⟨24, 1200, 0⟩ [(0 : ℚ)] true = .ok [0] := by
  constructor
  · exact silent_buffer_full_range.1 exceedsDefault 0 0 [0, 1] (by decide)
  · exact silent_buffer_full_range.2.1 ⟨24, 1200, 0⟩ 0 [] true [0]
      (by simp [normalizeQuantized, quantize, gapTrim, peakScale, npMaxAbs,
        truncToward0, toInt16, pyNegSlice, int16_max])
      no_amp_exceed_single_zero

/-- Claim C1 (amended): for every int16 buffer and threshold, the silence
locator computes the amplitude threshold as `INT16_MAX * 10^(thresholdDb/20)`
and finds the first index (scanning forward from 0) and the last index
(scanning backward from the end) whose SIGNED sample value exceeds that
amplitude — a sample whose value is a large negative number never counts as
non-silent — then applies the padding clamps. -/
theorem locator_signed_characterization (db : ℚ) (exceed : ℤ → Bool)
    (hex : ∀ z : ℤ, exceed z = true ↔ amplitudeThreshold db < (z : ℝ))
    (padS padE : ℕ) (audio : List ℤ) :
    ((∀ i, ¬ exceedsAmpAt db audio i) ∧
      find_first_last_non_silent padS padE exceed audio = (0, audio.length)) ∨
    (∃ s e, exceedsAmpAt db audio s ∧ (∀ j, j < s → ¬ exceedsAmpAt db audio j) ∧
        exceedsAmpAt db audio e ∧ (∀ j, e < j → ¬ exceedsAmpAt db audio j) ∧
        find_first_last_non_silent padS padE exceed audio =
          (s - padS, min (e + padE) audio.length)) := by
  have hbridge : ∀ i, exceedsAt exceed audio i ↔ exceedsAmpAt db audio i := by
    intro i
    unfold exceedsAt exceedsAmpAt
    constructor
    · rintro ⟨h, hx⟩
      exact ⟨h, (hex _).mp hx⟩
    · rintro ⟨h, hx⟩
      exact ⟨h, (hex _).mpr hx⟩
  cases hf : firstNonSilent exceed audio with
  | none =>
      left
      have hall := (firstNonSilent_eq_none_iff exceed audio).mp hf
      constructor
      · intro i hcon
        have h2 := (hbridge i).mpr hcon
        unfold exceedsAt at h2
        rcases h2 with ⟨h, hx⟩
        have h3 := hall _ (List.get_mem audio i h)
        rw [h3] at hx
        exact absurd hx (by simp)
      · exact find_silent exceed padS padE audio hall
  | some s =>
      right
      obtain ⟨hsx, hsmin⟩ := firstNonSilent_eq_some_spec exceed audio s hf
      rcases exceedsAt_imp_mem exceed audio s hsx with ⟨z, hz, hzx⟩
      obtain ⟨e, hl⟩ := lastNonSilent_isSome_of_mem exceed audio z hz hzx
      obtain ⟨hex2, hemax⟩ := lastNonSilent_eq_some_spec exceed audio e hl
      refine ⟨s, e, (hbridge s).mp hsx, ?_, (hbridge e).mp hex2, ?_, ?_⟩
      · intro j hj hcon
        exact hsmin j hj ((hbridge j).mpr hcon)
      · intro j hj hcon
        exact hemax j hj ((hbridge j).mpr hcon)
      · unfold find_first_last_non_silent
        rw [hf, hl]

theorem locator_signed_characterization_witness :
    ((∀ i, ¬ exceedsAmpAt (-45) [(200 : ℤ)] i) ∧
      find_first_last_non_silent 0 0 exceedsDefault [(200 : ℤ)] =
        (0, [(200 : ℤ)].length)) ∨
    (∃ s e, exceedsAmpAt (-45) [(200 : ℤ)] s ∧
        (∀ j, j < s → ¬ exceedsAmpAt (-45) [(200 : ℤ)] j) ∧
        exceedsAmpAt (-45) [(200 : ℤ)] e ∧
        (∀ j, e < j → ¬ exceedsAmpAt (-45) [(200 : ℤ)] j) ∧
        find_first_last_non_silent 0 0 exceedsDefault [(200 : ℤ)] =
          (s - 0, min (e + 0) [(200 : ℤ)].length)) :=
  locator_signed_characterization (-45) exceedsDefault exceedsDefault_iff 0 0 [(200 : ℤ)]

/-- Claim C1 counterexample: on the buffer `[0, 32767, 0, -32767]` with no
padding, the source locator returns `(1, 1)`: the backward scan does not
treat the sample `-32767` as non-silent although its absolute value exceeds
the threshold, while the absolute-value locator described by the claim
returns `(1, 3)`. -/
theorem locator_ignores_negative_samples_cex :
    find_first_last_non_silent 0 0 exceedsDefault [0, 32767, 0, -32767] = (1, 1) ∧
    find_first_last_abs 0 0 exceedsDefault [0, 32767, 0, -32767] = (1, 3) ∧
    amplitudeThreshold (-45) < ((32767 : ℤ) : ℝ) ∧
    ¬ amplitudeThreshold (-45) < ((-32767 : ℤ) : ℝ) ∧
    ((1, 1) : ℕ × ℕ) ≠ (1, 3) := by
  refine ⟨rfl, rfl, ?_, ?_, by decide⟩
  · exact (exceedsDefault_iff 32767).mp (by decide)
  · intro hcon
    have h1 : (0 : ℝ) < ((-32767 : ℤ) : ℝ) :=
      lt_trans (amplitudeThreshold_pos (-45)) hcon
    norm_num at h1

/-! ### Concrete evaluations used by counterexamples and witnesses -/

theorem eval_mk_cfg_1_50 : mkAudioNormalizer ⟨1, 50⟩ = ⟨24, 1200, 0⟩ := by
  unfold mkAudioNormalizer truncToward0
  norm_num
  decide

theorem eval_mk_cfg_0_50 : mkAudioNormalizer ⟨0, 50⟩ = ⟨0, 1200, 0⟩ := by
  unfold mkAudioNormalizer truncToward0
  norm_num
  decide

theorem eval_quantized_one_last : normalizeQuantized ⟨24, 1200, 0⟩ [(1 : ℚ)] true = .ok [32767] := by
  simp [normalizeQuantized, quantize, gapTrim, peakScale, npMaxAbs, truncToward0,
    toInt16, pyNegSlice, int16_max]

theorem eval_normalize_one_last_nopad :
    AudioNormalizer.normalize ⟨24, 1200, 0⟩ [(1 : ℚ)] true = .ok ([] : List ℤ) := by
  rw [normalize_eq_slice ⟨24, 1200, 0⟩ [(1 : ℚ)] true [32767] eval_quantized_one_last]
  rfl

theorem eval_quantized_zero_trim : normalizeQuantized ⟨0, 1200, 0⟩ [(1 : ℚ)] false = .ok ([] : List ℤ) := by
  simp [normalizeQuantized, quantize, gapTrim, peakScale, npMaxAbs, truncToward0,
    toInt16, pyNegSlice, int16_max]

theorem eval_quantize_single_one : quantize (peakScale [(1 : ℚ)] (npMaxAbs 1 [])) = [32767] := by
  simp [quantize, peakScale, npMaxAbs, truncToward0, toInt16, int16_max]

theorem eval_quantized_pair : normalizeQuantized ⟨24, 1200, 8640⟩ [(1 : ℚ), 0] true = .ok [32767, 0] := by
  simp [normalizeQuantized, quantize, gapTrim, peakScale, npMaxAbs, truncToward0,
    toInt16, pyNegSlice, int16_max]

theorem eval_normalize_pair :
    AudioNormalizer.normalize ⟨24, 1200, 8640⟩ [(1 : ℚ), 0] true = .ok [32767, 0] := by
  rw [normalize_eq_slice ⟨24, 1200, 8640⟩ [(1 : ℚ), 0] true [32767, 0] eval_quantized_pair]
  rfl

/-- Claim C3 (amended): whenever the quantized post-trim buffer contains at
least one sample above the silence threshold (a real signal) and the
configuration has `samples_to_pad_end ≥ 1`, the buffer returned by
`normalize` is non-empty.  (With `samples_to_pad_end = 0` — dynamic padding
at most 50 ms — a real signal whose only above-threshold sample sits at index
0 yields an empty output, see the counterexample.) -/
theorem normalize_nonempty_of_signal (nz : AudioNormalizer) (audio : List ℚ)
    (isLast : Bool) (q : List ℤ)
    (hq : normalizeQuantized nz audio isLast = .ok q)
    (hsig : ∃ i, exceedsAmpAt (-45) q i)
    (hpad : 1 ≤ nz.samples_to_pad_end) :
    ∃ out, nz.normalize audio isLast = .ok out ∧ out ≠ [] := by
  obtain ⟨i, hi⟩ := hsig
  have hiat : exceedsAt exceedsDefault q i := (exceedsAt_default_iff_amp q i).mpr hi
  rcases exceedsAt_imp_mem exceedsDefault q i hiat with ⟨z, hz, hzx⟩
  obtain ⟨s, hf⟩ := firstNonSilent_isSome_of_mem exceedsDefault q z hz hzx
  obtain ⟨e, hl⟩ := lastNonSilent_isSome_of_mem exceedsDefault q z hz hzx
  have hse : s ≤ e := first_le_last _ _ _ _ hf hl
  have hel : e < q.length :=
    exceedsAt_lt_length _ _ _ (lastNonSilent_eq_some_spec _ _ _ hl).1
  have hfind : find_first_last_non_silent nz.samples_to_pad_start
      nz.samples_to_pad_end exceedsDefault q =
      (s - nz.samples_to_pad_start, min (e + nz.samples_to_pad_end) q.length) := by
    unfold find_first_last_non_silent
    rw [hf, hl]
  refine ⟨_, normalize_eq_slice nz audio isLast q hq, ?_⟩
  rw [hfind]
  apply List.ne_nil_of_length_pos
  rw [List.length_drop, List.length_take]
  omega

theorem normalize_nonempty_of_signal_witness :
    ∃ out, AudioNormalizer.normalize ⟨24, 1200, 8640⟩ [(1 : ℚ), 0] true = .ok out ∧ out ≠ [] :=
  normalize_nonempty_of_signal ⟨24, 1200, 8640⟩ [(1 : ℚ), 0] true [32767, 0]
    eval_quantized_pair ⟨0, by
      unfold exceedsAmpAt
      exact ⟨by norm_num, (exceedsDefault_iff 32767).mp (by decide)⟩⟩
    (by norm_num)

/-- Claim C3 counterexample: with the reachable configuration
`gap_trim_ms = 1`, `dynamic_gap_trim_padding_ms = 50` (so
`samples_to_pad_end = 0`), the non-empty chunk `[1.0]` quantizes to
`[32767]`, which is above the silence threshold, yet `normalize` returns the
empty buffer: the locator yields `(0, min(0 + 0, 1)) = (0, 0)`. -/
theorem normalize_empty_output_real_signal_cex :
    mkAudioNormalizer ⟨1, 50⟩ = ⟨24, 1200, 0⟩ ∧
    normalizeQuantized ⟨24, 1200, 0⟩ [(1 : ℚ)] true = .ok [32767] ∧
    exceedsAmpAt (-45) [(32767 : ℤ)] 0 ∧
    ([(1 : ℚ)] : List ℚ) ≠ [] ∧
    AudioNormalizer.normalize ⟨24, 1200, 0⟩ [(1 : ℚ)] true = .ok ([] : List ℤ) :=
  ⟨eval_mk_cfg_1_50, eval_quantized_one_last, amp_exceed_single_32767,
    by simp, eval_normalize_one_last_nopad⟩

/-- Claim C5 (amended): `normalize` performs the gap trim on the
peak-normalized buffer, before quantization and silence-trimming.  On a last
chunk nothing is trimmed; on a non-last chunk of length at most
`samples_to_trim` nothing is trimmed; on a non-last longer chunk with
`samples_to_trim ≥ 1` exactly the last `samples_to_trim` samples are dropped;
but with `samples_to_trim = 0` the Python slice `[:-0]` empties the whole
buffer instead of dropping nothing. -/
theorem gap_trim_exact_drop (nz : AudioNormalizer) (x : ℚ) (xs : List ℚ) (isLast : Bool) :
    normalizeQuantized nz (x :: xs) isLast =
      .ok (quantize (gapTrim nz.samples_to_trim isLast (peakScale (x :: xs) (npMaxAbs x xs)))) ∧
    (∀ af : List ℚ, gapTrim nz.samples_to_trim true af = af) ∧
    (∀ af : List ℚ, af.length ≤ nz.samples_to_trim →
        gapTrim nz.samples_to_trim false af = af) ∧
    (∀ af : List ℚ, nz.samples_to_trim < af.length → 1 ≤ nz.samples_to_trim →
        gapTrim nz.samples_to_trim false af = af.take (af.length - nz.samples_to_trim)) ∧
    (∀ af : List ℚ, 0 < af.length → nz.samples_to_trim = 0 →
        gapTrim nz.samples_to_trim false af = []) := by
  refine ⟨normalizeQuantized_cons nz x xs isLast, ?_, ?_, ?_, ?_⟩
  · intro af
    unfold gapTrim
    rw [if_neg]
    simp
  · intro af h
    unfold gapTrim
    rw [if_neg]
    intro hcon
    omega
  · intro af h1 h2
    unfold gapTrim pyNegSlice
    rw [if_pos ⟨rfl, h1⟩, if_neg (by omega)]
  · intro af h1 h2
    unfold gapTrim pyNegSlice
    rw [if_pos ⟨rfl, by omega⟩, if_pos h2, List.take_zero]

theorem gap_trim_exact_drop_witness :
    (normalizeQuantized ⟨24, 1200, 0⟩ [(1 : ℚ)] false =
      .ok (quantize (gapTrim 24 false (peakScale [(1 : ℚ)] (npMaxAbs 1 [])))) ∧
    (∀ af : List ℚ, gapTrim 24 true af = af) ∧
    (∀ af : List ℚ, af.length ≤ 24 → gapTrim 24 false af = af) ∧
    (∀ af : List ℚ, 24 < af.length → 1 ≤ 24 →
        gapTrim 24 false af = af.take (af.length - 24)) ∧
    (∀ af : List ℚ, 0 < af.length → 24 = 0 → gapTrim 24 false af = [])) :=
  gap_trim_exact_drop ⟨24, 1200, 0⟩ 1 [] false

/-- Claim C5 counterexample: with the reachable configuration
`gap_trim_ms = 0` the trim count is `0`; on the non-last chunk `[1.0]`
(length `1 > 0`) the claim requires dropping exactly `0` samples, i.e. the
quantized buffer `[32767]`, but the code's slice `[:-0]` empties the buffer
and `normalizeQuantized` returns `[]`. -/
theorem gap_trim_zero_empties_chunk_cex :
    mkAudioNormalizer ⟨0, 50⟩ = ⟨0, 1200, 0⟩ ∧
    normalizeQuantized ⟨0, 1200, 0⟩ [(1 : ℚ)] false = .ok ([] : List ℤ) ∧
    quantize (peakScale [(1 : ℚ)] (npMaxAbs 1 [])) = [32767] ∧
    ([] : List ℤ) ≠ [32767] :=
  ⟨eval_mk_cfg_0_50, eval_quantized_zero_trim, eval_quantize_single_one, by simp⟩

/-- Claim C6 (confirmed): for every input chunk and flag, a buffer returned
by `normalize` is no longer than the input chunk and every sample in it has
absolute value at most 32767. -/
theorem normalize_output_bounded (nz : AudioNormalizer) (audio : List ℚ)
    (isLast : Bool) (out : List ℤ) (h : nz.normalize audio isLast = .ok out) :
    out.length ≤ audio.length ∧ ∀ z ∈ out, |z| ≤ int16_max := by
  unfold AudioNormalizer.normalize at h
  cases hq : normalizeQuantized nz audio isLast with
  | error e =>
      rw [hq] at h
      simp at h
  | ok q =>
      rw [hq] at h
      injection h with h
      subst h
      constructor
      · have h1 : ((q.take (find_first_last_non_silent nz.samples_to_pad_start
            nz.samples_to_pad_end exceedsDefault q).2).drop
            (find_first_last_non_silent nz.samples_to_pad_start
              nz.samples_to_pad_end exceedsDefault q).1).length ≤ q.length := by
          rw [List.length_drop, List.length_take]
          omega
        exact le_trans h1 (normalizeQuantized_ok_length nz audio isLast q hq)
      · intro z hz
        have hz2 : z ∈ q := List.take_subset _ _ (List.drop_subset _ _ hz)
        exact normalizeQuantized_ok_abs nz audio isLast q hq z hz2

theorem normalize_output_bounded_witness :
    ([32767, 0] : List ℤ).length ≤ ([(1 : ℚ), 0] : List ℚ).length ∧
    ∀ z ∈ ([32767, 0] : List ℤ), |z| ≤ int16_max :=
  normalize_output_bounded ⟨24, 1200, 8640⟩ [(1 : ℚ), 0] true [32767, 0] eval_normalize_pair

/-! ### Dictionary merge lemmas for the settings resolver -/

theorem lookup_map_override (d o : List (String × SVal)) (k : String) :
    (d.map (fun p => (p.1, (o.lookup p.1).getD p.2))).lookup k =
      (d.lookup k).map (fun v => (o.lookup k).getD v) := by
  induction d with
  | nil => rfl
  | cons p ps ih =>
      by_cases hk : k = p.1
      · subst hk
        simp [List.lookup]
      · simp [List.lookup, beq_eq_false_iff_ne.mpr hk, ih]

theorem lookup_filter_keys (d o : List (String × SVal)) (k : String)
    (hd : d.lookup k = none) :
    (o.filter (fun p => (d.lookup p.1).isNone)).lookup k = o.lookup k := by
  induction o with
  | nil => rfl
  | cons q qs ih =>
      by_cases hq : k = q.1
      · subst hq
        have hnone : (d.lookup q.1).isNone = true := by
          rw [hd]
          rfl
        simp [List.filter_cons, hnone, List.lookup]
      · cases hfq : (d.lookup q.1).isNone with
        | true => simp [List.filter_cons, hfq, List.lookup, beq_eq_false_iff_ne.mpr hq, ih]
        | false => simp [List.filter_cons, hfq, List.lookup, beq_eq_false_iff_ne.mpr hq, ih]

theorem lookup_append_cases (A B : List (String × SVal)) (k : String) :
    (A ++ B).lookup k =
      match A.lookup k with
      | some v => some v
      | none => B.lookup k := by
  induction A with
  | nil => rfl
  | cons p ps ih =>
      by_cases hk : k = p.1
      · subst hk
        simp [List.lookup]
      · simp [List.lookup, beq_eq_false_iff_ne.mpr hk, ih]

theorem dictUpdate_lookup_some (d o : List (String × SVal)) (k : String) (v : SVal)
    (h : o.lookup k = some v) : (dictUpdate d o).lookup k = some v := by
  unfold dictUpdate
  rw [lookup_append_cases, lookup_map_override]
  cases hd : d.lookup k with
  | some w => simp [h]
  | none =>
      simp only [Option.map_none']
      rw [lookup_filter_keys d o k hd]
      exact h

theorem dictUpdate_lookup_none (d o : List (String × SVal)) (k : String)
    (h : o.lookup k = none) : (dictUpdate d o).lookup k = d.lookup k := by
  unfold dictUpdate
  rw [lookup_append_cases, lookup_map_override]
  cases hd : d.lookup k with
  | some w => simp [h]
  | none =>
      simp only [Option.map_none']
      rw [lookup_filter_keys d o k hd]
      exact h

theorem dictUpdate_nil (d : List (String × SVal)) : dictUpdate d [] = d := by
  unfold dictUpdate
  simp [List.lookup]

/-! ### Byte output and normalization success lemmas -/

theorem tobytes_length (data : List ℤ) : (tobytes data).length = 2 * data.length := by
  induction data with
  | nil => rfl
  | cons z zs ih =>
      have h2 : (int16LEBytes z).length = 2 := rfl
      show (int16LEBytes z ++ tobytes zs).length = 2 * (zs.length + 1)
      rw [List.length_append, h2, ih]
      omega

theorem normalize_cons_exists_ok (nz : AudioNormalizer) (x : ℚ) (xs : List ℚ)
    (isLast : Bool) : ∃ out, nz.normalize (x :: xs) isLast = .ok out :=
  ⟨_, normalize_eq_slice nz (x :: xs) isLast _ (normalizeQuantized_cons nz x xs isLast)⟩

/-! ### Claim theorems about `convert_audio` -/

/-- Claim C10 (confirmed): every exception escaping `convert_audio` is a
`ValueError` whose message is `"Failed to convert audio to {format}: "`
followed by the underlying cause's message; no raw collaborator exception and
no unwrapped unsupported-format error ever propagates. -/
theorem convert_audio_error_always_wrapped (collab : Collab) (cfg : Config)
    (audio : List ℤ) (sr : ℕ) (fmt : String) (f l : Bool)
    (nrm : Option AudioNormalizer)
    (fs : Option (List (String × List (String × SVal)))) (stream : Bool)
    (e : PyExc)
    (h : convert_audio collab cfg audio sr fmt f l nrm fs stream = .error e) :
    e.ty = "ValueError" ∧
    ∃ e0 : PyExc,
      convert_audio_body collab cfg audio sr fmt f l nrm fs stream = .error e0 ∧
      e.msg = "Failed to convert audio to " ++ fmt ++ ": " ++ e0.msg := by
  unfold convert_audio wrapConvertError at h
  cases hb : convert_audio_body collab cfg audio sr fmt f l nrm fs stream with
  | ok b =>
      rw [hb] at h
      simp at h
  | error e0 =>
      rw [hb] at h
      injection h with h
      subst h
      exact ⟨rfl, e0, rfl, rfl⟩

theorem convert_audio_error_always_wrapped_witness :
    (⟨"ValueError", "Failed to convert audio to " ++ "aac" ++ ": " ++
        "Format aac not supported. Supported formats are: wav, mp3, opus, flac, pcm."⟩ : PyExc).ty =
      "ValueError" ∧
    ∃ e0 : PyExc,
      convert_audio_body trivialCollab ⟨1, 410⟩ [] 24000 "aac" true false none none false =
        .error e0 ∧
      (⟨"ValueError", "Failed to convert audio to " ++ "aac" ++ ": " ++
          "Format aac not supported. Supported formats are: wav, mp3, opus, flac, pcm."⟩ : PyExc).msg =
        "Failed to convert audio to " ++ "aac" ++ ": " ++ e0.msg :=
  convert_audio_error_always_wrapped trivialCollab ⟨1, 410⟩ [] 24000 "aac" true false
    none none false _ rfl

/-- Claim C8 (confirmed): whenever the normalization step yields the buffer
`nbuf` (the raw input buffer in non-streaming mode), `convert_audio` with
format `"pcm"` returns exactly the concatenated little-endian 16-bit sample
bytes of `nbuf` — `2 * len(nbuf)` bytes, no container header. -/
theorem convert_audio_pcm_bytes (collab : Collab) (cfg : Config)
    (audio : List ℤ) (sr : ℕ) (f l : Bool) (nrm : Option AudioNormalizer)
    (fs : Option (List (String × List (String × SVal)))) (stream : Bool)
    (nbuf : List ℤ)
    (h : (if stream = true
          then (nrm.getD (mkAudioNormalizer cfg)).normalize
                 (audio.map (fun z => (z : ℚ))) l
          else Except.ok audio) = Except.ok nbuf) :
    convert_audio collab cfg audio sr "pcm" f l nrm fs stream = .ok (tobytes nbuf) ∧
    (tobytes nbuf).length = 2 * nbuf.length := by
  constructor
  · unfold convert_audio convert_audio_body
    split
    next e heq =>
        rw [h] at heq
        simp at heq
    next na heq =>
        rw [h] at heq
        injection heq with heq
        subst heq
        rfl
  · exact tobytes_length nbuf

theorem convert_audio_pcm_bytes_witness :
    convert_audio trivialCollab ⟨1, 410⟩ [1, -1] 24000 "pcm" true false none none false =
      .ok (tobytes [1, -1]) ∧
    (tobytes [1, -1]).length = 2 * ([1, -1] : List ℤ).length :=
  convert_audio_pcm_bytes trivialCollab ⟨1, 410⟩ [1, -1] 24000 true false none none
    false [1, -1] rfl

/-- Claim C2 (amended): for every call in which the normalization step does
not itself fail (any call with `stream = false`, and any non-empty buffer
with `stream = true`), `convert_audio` with `format = "aac"` or any tag
outside the supported five fails with a `ValueError` that carries the
requested format and the supported set; the rejection is re-raised by the
catch-all handler wrapped as
`"Failed to convert audio to {format}: Format {format} not supported. ..."`,
not surfaced unwrapped. -/
theorem unsupported_format_error_wrapped (collab : Collab) (cfg : Config)
    (audio : List ℤ) (sr : ℕ) (fmt : String) (f l : Bool)
    (nrm : Option AudioNormalizer)
    (fs : Option (List (String × List (String × SVal)))) (stream : Bool)
    (hfmt : fmt ∉ (["wav", "mp3", "opus", "flac", "pcm"] : List String))
    (hok : stream = false ∨ audio ≠ []) :
    convert_audio collab cfg audio sr fmt f l nrm fs stream =
      .error ⟨"ValueError",
        "Failed to convert audio to " ++ fmt ++ ": " ++
          ("Format " ++ fmt ++
            " not supported. Supported formats are: wav, mp3, opus, flac, pcm.")⟩ := by
  have hwav : ¬ fmt = "wav" := fun hh => hfmt (by simp [hh])
  have hmp3 : ¬ fmt = "mp3" := fun hh => hfmt (by simp [hh])
  have hopus : ¬ fmt = "opus" := fun hh => hfmt (by simp [hh])
  have hflac : ¬ fmt = "flac" := fun hh => hfmt (by simp [hh])
  have hpcm : ¬ fmt = "pcm" := fun hh => hfmt (by simp [hh])
  have hnorm : ∃ nbuf, (if stream = true
      then (nrm.getD (mkAudioNormalizer cfg)).normalize
             (audio.map (fun z => (z : ℚ))) l
      else Except.ok audio) = Except.ok nbuf := by
    cases stream with
    | false => exact ⟨audio, rfl⟩
    | true =>
        rcases hok with hs | hne
        · exact absurd hs (by simp)
        · cases audio with
          | nil => exact absurd rfl hne
          | cons a as =>
              obtain ⟨out, hout⟩ :=
                normalize_cons_exists_ok (nrm.getD (mkAudioNormalizer cfg))
                  ((a : ℚ)) (as.map (fun z => (z : ℚ))) l
              exact ⟨out, by simpa using hout⟩
  obtain ⟨nbuf, hnb⟩ := hnorm
  unfold convert_audio convert_audio_body
  split
  next e heq =>
      rw [hnb] at heq
      simp at heq
  next na heq =>
      rw [hnb] at heq
      injection heq with heq
      subst heq
      rw [if_neg hpcm, if_neg hwav, if_neg hmp3, if_neg hopus, if_neg hflac]
      by_cases hac : fmt = "aac"
      · subst hac
        rfl
      · rw [if_neg hac]
        rfl

theorem unsupported_format_error_wrapped_witness :
    convert_audio trivialCollab ⟨1, 410⟩ [0] 24000 "xyz" true false none none true =
      .error ⟨"ValueError",
        "Failed to convert audio to " ++ "xyz" ++ ": " ++
          ("Format " ++ "xyz" ++
            " not supported. Supported formats are: wav, mp3, opus, flac, pcm.")⟩ :=
  unsupported_format_error_wrapped trivialCollab ⟨1, 410⟩ [0] 24000 "xyz" true false
    none none true (by decide) (Or.inr (by simp))

/-- Claim C2 counterexample: the unsupported-format rejection is NOT surfaced
directly: the `ValueError` escaping `convert_audio` for `format = "aac"`
carries the catch-all wrapper message, which differs from the bare
unsupported-format message raised inside the body. -/
theorem unsupported_aac_wrapped_cex :
    convert_audio trivialCollab ⟨1, 410⟩ [] 24000 "aac" true false none none false =
      .error ⟨"ValueError",
        "Failed to convert audio to aac: Format aac not supported. Supported formats are: wav, mp3, opus, flac, pcm."⟩ ∧
    ("Failed to convert audio to aac: Format aac not supported. Supported formats are: wav, mp3, opus, flac, pcm." : String) ≠
      "Format aac not supported. Supported formats are: wav, mp3, opus, flac, pcm." :=
  ⟨rfl, by decide⟩

/-- Claim C9 (confirmed): for each codec format in `{mp3, opus, flac}`, the
settings handed to the encoder are the static defaults for that format with
the caller's keys for that same format overlaid — caller keys replace default
keys, unlisted default keys are preserved — override entries for other
formats have no effect on the call, and with no overrides exactly the
defaults are used. -/
theorem codec_settings_resolution (collab : Collab) (cfg : Config)
    (audio : List ℤ) (sr : ℕ) (f l : Bool) (nrm : Option AudioNormalizer)
    (fs : Option (List (String × List (String × SVal)))) (stream : Bool)
    (fmt : String) (nbuf : List ℤ)
    (hfmt : fmt = "mp3" ∨ fmt = "opus" ∨ fmt = "flac")
    (h : (if stream = true
          then (nrm.getD (mkAudioNormalizer cfg)).normalize
                 (audio.map (fun z => (z : ℚ))) l
          else Except.ok audio) = Except.ok nbuf) :
    convert_audio collab cfg audio sr fmt f l nrm fs stream =
      wrapConvertError fmt
        (collab.sfWrite (sfFormatName fmt) (sfSubtypeName fmt) nbuf sr
          (resolvedSettings fs fmt)) ∧
    (∀ k v, (callerSettings fs fmt).lookup k = some v →
        (resolvedSettings fs fmt).lookup k = some v) ∧
    (∀ k, (callerSettings fs fmt).lookup k = none →
        (resolvedSettings fs fmt).lookup k = (DEFAULT_SETTINGS fmt).lookup k) ∧
    (∀ fs2 : Option (List (String × List (String × SVal))),
        callerSettings fs2 fmt = callerSettings fs fmt →
        resolvedSettings fs2 fmt = resolvedSettings fs fmt) ∧
    resolvedSettings none fmt = DEFAULT_SETTINGS fmt := by
  refine ⟨?_, ?_, ?_, ?_, ?_⟩
  · unfold convert_audio convert_audio_body
    split
    next e heq =>
        rw [h] at heq
        simp at heq
    next na heq =>
        rw [h] at heq
        injection heq with heq
        subst heq
        rcases hfmt with rfl | rfl | rfl
        · rfl
        · rfl
        · rfl
  · intro k v hkv
    exact dictUpdate_lookup_some _ _ k v hkv
  · intro k hk
    exact dictUpdate_lookup_none _ _ k hk
  · intro fs2 hsame
    unfold resolvedSettings
    rw [hsame]
  · unfold resolvedSettings callerSettings
    exact dictUpdate_nil _

theorem codec_settings_resolution_witness :
    (convert_audio trivialCollab ⟨1, 410⟩ [0] 24000 "mp3" true false none
      (some [("mp3", [("compression_level", SVal.num 1)]),
             ("opus", [("bitrate_mode", SVal.str "VARIABLE")])]) false =
      wrapConvertError "mp3"
        (trivialCollab.sfWrite (sfFormatName "mp3") (sfSubtypeName "mp3") [0] 24000
          (resolvedSettings
            (some [("mp3", [("compression_level", SVal.num 1)]),
                   ("opus", [("bitrate_mode", SVal.str "VARIABLE")])]) "mp3"))) ∧
    (∀ k v, (callerSettings
        (some [("mp3", [("compression_level", SVal.num 1)]),
               ("opus", [("bitrate_mode", SVal.str "VARIABLE")])]) "mp3").lookup k = some v →
      (resolvedSettings
        (some [("mp3", [("compression_level", SVal.num 1)]),
               ("opus", [("bitrate_mode", SVal.str "VARIABLE")])]) "mp3").lookup k = some v) ∧
    (∀ k, (callerSettings
        (some [("mp3", [("compression_level", SVal.num 1)]),
               ("opus", [("bitrate_mode", SVal.str "VARIABLE")])]) "mp3").lookup k = none →
      (resolvedSettings
        (some [("mp3", [("compression_level", SVal.num 1)]),
               ("opus", [("bitrate_mode", SVal.str "VARIABLE")])]) "mp3").lookup k =
        (DEFAULT_SETTINGS "mp3").lookup k) ∧
    (∀ fs2 : Option (List (String × List (String × SVal))),
        callerSettings fs2 "mp3" = callerSettings
          (some [("mp3", [("compression_level", SVal.num 1)]),
                 ("opus", [("bitrate_mode", SVal.str "VARIABLE")])]) "mp3" →
        resolvedSettings fs2 "mp3" = resolvedSettings
          (some [("mp3", [("compression_level", SVal.num 1)]),
                 ("opus", [("bitrate_mode", SVal.str "VARIABLE")])]) "mp3") ∧
    resolvedSettings none "mp3" = DEFAULT_SETTINGS "mp3" :=
  codec_settings_resolution trivialCollab ⟨1, 410⟩ [0] 24000 true false none
    (some [("mp3", [("compression_level", SVal.num 1)]),
           ("opus", [("bitrate_mode", SVal.str "VARIABLE")])]) false "mp3" [0]
    (Or.inl rfl) rfl

/-- Claim C7 counterexample: an empty chunk is trivially fully silent (no
sample exceeds the threshold), yet `normalize` raises numpy's zero-size
reduction `ValueError` on it instead of returning a buffer without
exception. -/
theorem normalize_empty_chunk_raises_cex :
    AudioNormalizer.normalize ⟨24, 1200, 8640⟩ ([] : List ℚ) true =
      .error npEmptyMaxError ∧
    npEmptyMaxError.ty = "ValueError" :=
  ⟨rfl, rfl⟩
